import Mathlib

/-!
Verification of the simple-thumbnailer job pipeline and reconciliation
scanner against its specification.

The Go sources are embedded shallowly:

* Go strings are Lean `String`s; the Go standard-library string operations
  used by the code (strings.Split, strings.TrimSpace, strings.Contains,
  strings.HasPrefix, strings.ToLower on the ASCII mime strings involved)
  are re-implemented here as executable functions on the character list of
  a string, so that every definition evaluates inside the kernel.
* fmt.Sprintf("%d", n) is embedded as the decimal rendering function
  decRepr below (fuel-based so that it is structurally recursive).
* The content store, the message bus and the renderer subprocesses are the
  external collaborators of the spec; their responses are supplied to the
  pipeline as an explicit environment value, and the pipeline returns the
  derived-record store contents and the published completion event instead
  of performing IO.
-/

namespace Thumbnailer

/-! ## Go string primitives, embedded on character lists -/

/-- strings.HasPrefix on character lists. -/
def startsWith : List Char → List Char → Bool
  | _, [] => true
  | [], _ :: _ => false
  | c :: s, p :: ps => c = p && startsWith s ps

/-- strings.Contains on character lists: the needle occurs somewhere in the
haystack. -/
def containsChars (needle : List Char) : List Char → Bool
  | [] => needle.isEmpty
  | c :: s => startsWith (c :: s) needle || containsChars needle s

/-- strings.Contains. -/
def goContains (s sub : String) : Bool :=
  containsChars sub.data s.data

/-- strings.HasPrefix. -/
def goHasPre (s pre : String) : Bool :=
  startsWith s.data pre.data

/-- The whitespace characters trimmed by strings.TrimSpace (the ASCII ones;
the jobs in the claims carry only ASCII hints). -/
def isGoSpace (c : Char) : Bool :=
  c = ' ' || c = '\t' || c = '\n' || c = '\x0b' || c = '\x0c' || c = '\r'

/-- strings.TrimSpace. -/
def goTrim (s : String) : String :=
  ⟨((s.data.dropWhile isGoSpace).reverse.dropWhile isGoSpace).reverse⟩

/-- Splitting a character list on a separator character, as
strings.Split(s, sep) does for a one-character separator:
the result always has one more part than there are separators. -/
def splitOnChar (sep : Char) : List Char → List (List Char)
  | [] => [[]]
  | c :: s =>
    match splitOnChar sep s with
    | [] => [[]]
    | part :: parts =>
      if c = sep then [] :: part :: parts
      else (c :: part) :: parts

/-- strings.Split with a one-character separator. -/
def goSplit (s : String) (sep : Char) : List String :=
  (splitOnChar sep s.data).map fun part => ⟨part⟩

/-- strings.ToLower, for the ASCII mime-type strings the worker inspects. -/
def goToLower (s : String) : String :=
  ⟨s.data.map fun c => if 'A' ≤ c && c ≤ 'Z' then Char.ofNat (c.toNat + 32) else c⟩

/-! ## Decimal rendering (fmt.Sprintf "%d") -/

/-- The decimal digit characters written by fmt. -/
def digitChar (n : Nat) : Char :=
  match n with
  | 0 => '0' | 1 => '1' | 2 => '2' | 3 => '3' | 4 => '4'
  | 5 => '5' | 6 => '6' | 7 => '7' | 8 => '8' | _ => '9'

/-- Digit accumulation, most significant digit first; the fuel argument only
makes the recursion structural and is always sufficient at the call site. -/
def decCharsCore : Nat → Nat → List Char → List Char
  | 0, _, acc => acc
  | fuel + 1, n, acc =>
    if n < 10 then digitChar n :: acc
    else decCharsCore fuel (n / 10) (digitChar (n % 10) :: acc)

/-- The decimal digit characters of a natural number. -/
def decList (n : Nat) : List Char :=
  decCharsCore (n + 1) n []

/-- fmt.Sprintf("%d", n). -/
def decRepr (n : Nat) : String :=
  ⟨decList n⟩

theorem decCharsCore_spec : ∀ n : Nat, ∀ fuel acc, n < fuel →
    decCharsCore fuel n acc = decList n ++ acc := by
  intro n
  induction n using Nat.strong_induction_on with
  | _ n ih =>
    intro fuel acc hfuel
    match fuel, hfuel with
    | f + 1, hfuel =>
      by_cases h10 : n < 10
      · simp [decCharsCore, decList, h10]
      · have hdivn : n / 10 < n := Nat.div_lt_self (by omega) (by omega)
        have hdivf : n / 10 < f := by omega
        rw [decCharsCore, if_neg h10, ih (n / 10) hdivn f _ hdivf]
        have : decList n = decList (n / 10) ++ [digitChar (n % 10)] := by
          rw [decList, decCharsCore, if_neg h10,
            ih (n / 10) hdivn n _ (by omega)]
        rw [this, List.append_assoc]
        rfl

/-- The recurrence actually satisfied by the decimal rendering. -/
theorem decList_eq (n : Nat) :
    decList n = if n < 10 then [digitChar n]
      else decList (n / 10) ++ [digitChar (n % 10)] := by
  by_cases h10 : n < 10
  · simp [decList, decCharsCore, h10]
  · have hdivn : n / 10 < n := Nat.div_lt_self (by omega) (by omega)
    rw [decList, decCharsCore, if_neg h10,
      decCharsCore_spec (n / 10) n _ (by omega), if_neg h10]

theorem digitChar_inj {m n : Nat} (hm : m < 10) (hn : n < 10)
    (h : digitChar m = digitChar n) : m = n := by
  interval_cases m <;> interval_cases n <;> revert h <;> decide

theorem digitChar_ne_x {n : Nat} (hn : n < 10) : digitChar n ≠ 'x' := by
  interval_cases n <;> decide

theorem mem_decList {c : Char} : ∀ {n : Nat}, c ∈ decList n →
    ∃ d, d < 10 ∧ c = digitChar d := by
  intro n
  induction n using Nat.strong_induction_on with
  | _ n ih =>
    intro hc
    rw [decList_eq] at hc
    by_cases h10 : n < 10
    · rw [if_pos h10] at hc
      exact ⟨n, h10, List.mem_singleton.1 hc⟩
    · rw [if_neg h10] at hc
      rcases List.mem_append.1 hc with h | h
      · exact ih (n / 10) (Nat.div_lt_self (by omega) (by omega)) h
      · exact ⟨n % 10, Nat.mod_lt _ (by omega), List.mem_singleton.1 h⟩

theorem x_not_mem_decList (n : Nat) : 'x' ∉ decList n := by
  intro hmem
  obtain ⟨d, hd, hc⟩ := mem_decList hmem
  exact digitChar_ne_x hd hc.symm

theorem decList_ne_nil (n : Nat) : decList n ≠ [] := by
  rw [decList_eq]
  by_cases h10 : n < 10 <;> simp [h10]

theorem decList_inj : ∀ m : Nat, ∀ n, decList m = decList n → m = n := by
  intro m
  induction m using Nat.strong_induction_on with
  | _ m ih =>
    intro n h
    rw [decList_eq m, decList_eq n] at h
    by_cases hm : m < 10 <;> by_cases hn : n < 10
    · rw [if_pos hm, if_pos hn] at h
      exact digitChar_inj hm hn (List.singleton_inj.1 h)
    · exfalso
      rw [if_pos hm, if_neg hn] at h
      have hlen := congrArg List.length h
      rw [List.length_append, List.length_singleton, List.length_singleton] at hlen
      have := List.length_pos.2 (decList_ne_nil (n / 10))
      omega
    · exfalso
      rw [if_neg hm, if_pos hn] at h
      have hlen := congrArg List.length h
      rw [List.length_append, List.length_singleton, List.length_singleton] at hlen
      have := List.length_pos.2 (decList_ne_nil (m / 10))
      omega
    · rw [if_neg hm, if_neg hn] at h
      have := List.append_inj' h (by rfl)
      have hdiv : m / 10 = n / 10 :=
        ih (m / 10) (Nat.div_lt_self (by omega) (by omega)) (n / 10) this.1
      have hmod : m % 10 = n % 10 :=
        digitChar_inj (Nat.mod_lt _ (by omega)) (Nat.mod_lt _ (by omega))
          (List.singleton_inj.1 this.2)
      omega

/-- Splitting at a separator absent from both left parts is unambiguous. -/
theorem append_sep_inj {x : Char} :
    ∀ {l₁ : List Char}, ∀ {l₂ r₁ r₂ : List Char}, x ∉ l₁ → x ∉ l₂ →
      l₁ ++ x :: r₁ = l₂ ++ x :: r₂ → l₁ = l₂ ∧ r₁ = r₂ := by
  intro l₁
  induction l₁ with
  | nil =>
    intro l₂ r₁ r₂ _ h₂ h
    cases l₂ with
    | nil => simpa using h
    | cons b t =>
      exfalso
      rw [List.nil_append, List.cons_append, List.cons.injEq] at h
      exact h₂ (h.1 ▸ List.mem_cons_self b t)
  | cons a s ih =>
    intro l₂ r₁ r₂ h₁ h₂ h
    cases l₂ with
    | nil =>
      exfalso
      rw [List.nil_append, List.cons_append, List.cons.injEq] at h
      exact h₁ (h.1 ▸ List.mem_cons_self a s)
    | cons b t =>
      rw [List.cons_append, List.cons_append, List.cons.injEq] at h
      have := ih (fun hx => h₁ (List.mem_cons_of_mem a hx))
        (fun hx => h₂ (List.mem_cons_of_mem b hx)) h.2
      exact ⟨by rw [h.1, this.1], this.2⟩

/-! ## deriveSizeVariant (cmd/worker/main.go and internal/upload/client.go) -/

/-- deriveSizeVariant creates a variant string from width and height. -/
def deriveSizeVariant (width height : Nat) : String :=
  if width = height then "thumbnail_" ++ decRepr width
  else "thumbnail_" ++ decRepr width ++ "x" ++ decRepr height

/-- C6: variant-name derivation is a deterministic function of the pair
(width, height), sends an equal pair to a single-number name and an unequal
pair to a WxH name as in the spec examples, and is injective on pairs of
positive integers. -/
theorem deriveSizeVariant_deterministic_injective :
    (∀ w h : Nat, deriveSizeVariant w h = deriveSizeVariant w h)
    ∧ deriveSizeVariant 512 512 = "thumbnail_512"
    ∧ deriveSizeVariant 512 384 = "thumbnail_512x384"
    ∧ ∀ w₁ h₁ w₂ h₂ : Nat, 0 < w₁ → 0 < h₁ → 0 < w₂ → 0 < h₂ →
        deriveSizeVariant w₁ h₁ = deriveSizeVariant w₂ h₂ →
        w₁ = w₂ ∧ h₁ = h₂ := by
  refine ⟨fun _ _ => rfl, by decide, by decide, ?_⟩
  intro w₁ h₁ w₂ h₂ _ _ _ _ h
  have hdata := congrArg String.data h
  by_cases e₁ : w₁ = h₁ <;> by_cases e₂ : w₂ = h₂
  · simp only [deriveSizeVariant, if_pos e₁, if_pos e₂, String.data_append,
      decRepr] at hdata
    have := decList_inj _ _ (List.append_cancel_left hdata)
    exact ⟨this, by rw [← e₁, ← e₂, this]⟩
  · exfalso
    simp only [deriveSizeVariant, if_pos e₁, if_neg e₂, String.data_append,
      decRepr, List.append_assoc] at hdata
    have hmem : 'x' ∈ decList w₁ := by
      rw [List.append_cancel_left hdata]
      refine List.mem_append.2 (Or.inr ?_)
      refine List.mem_append.2 (Or.inl ?_)
      decide
    exact x_not_mem_decList w₁ hmem
  · exfalso
    simp only [deriveSizeVariant, if_neg e₁, if_pos e₂, String.data_append,
      decRepr, List.append_assoc] at hdata
    have hmem : 'x' ∈ decList w₂ := by
      rw [← List.append_cancel_left hdata]
      refine List.mem_append.2 (Or.inr ?_)
      refine List.mem_append.2 (Or.inl ?_)
      decide
    exact x_not_mem_decList w₂ hmem
  · simp only [deriveSizeVariant, if_neg e₁, if_neg e₂, String.data_append,
      decRepr, List.append_assoc, List.singleton_append] at hdata
    have hsplit := append_sep_inj (x_not_mem_decList w₁) (x_not_mem_decList w₂)
      (List.append_cancel_left hdata)
    exact ⟨decList_inj _ _ hsplit.1, decList_inj _ _ hsplit.2⟩

/-- C6 witness: the theorem applied at the concrete pairs (512,512),
(512,384) and (3,4) against (3,4). -/
theorem deriveSizeVariant_deterministic_injective_witness :
    deriveSizeVariant 512 512 = "thumbnail_512" ∧ (3 = 3 ∧ 4 = 4) :=
  ⟨deriveSizeVariant_deterministic_injective.2.1,
    deriveSizeVariant_deterministic_injective.2.2.2 3 4 3 4
      (by decide) (by decide) (by decide) (by decide) rfl⟩

/-! ## Status and failure-type constants
(values documented in the repository's status-lifecycle document and
pkg/schema/events.go) -/

def ContentStatusCreated : String := "created"

def ContentStatusUploaded : String := "uploaded"

def ContentStatusProcessing : String := "processing"

def ContentStatusProcessed : String := "processed"

def ContentStatusFailed : String := "failed"

def ObjectStatusUploaded : String := "uploaded"

def FailureTypeRetryable : String := "retryable"

def FailureTypePermanent : String := "permanent"

def FailureTypeValidation : String := "validation"

/-! ## Error classification (classifyError, cmd/worker/main.go) -/

/-- An error reaching classifyError: either the worker's ValidationError
(recovered by errors.As together with its FailureType tag) or any other
error, represented by the text err.Error() returns. -/
inductive GoError where
  | validation (failureType : String) (message : String)
  | generic (message : String)
deriving DecidableEq, Repr

def GoError.message : GoError → String
  | .validation _ m => m
  | .generic m => m

/-- The transient signatures classifyError searches the error text for. -/
def retryableSignature (msg : String) : Bool :=
  goContains msg "connection refused" || goContains msg "timeout" ||
    goContains msg "temporary failure" ||
    goContains msg "context deadline exceeded"

/-- The permanent signatures classifyError searches the error text for. -/
def permanentSignature (msg : String) : Bool :=
  goContains msg "no such file" || goContains msg "permission denied" ||
    goContains msg "invalid image format" || goContains msg "unsupported"

/-- classifyError from cmd/worker/main.go; the none case is a nil error. -/
def classifyError : Option GoError → String
  | none => ""
  | some (.validation t _) => t
  | some (.generic msg) =>
    if retryableSignature msg then FailureTypeRetryable
    else if permanentSignature msg then FailureTypePermanent
    else FailureTypeRetryable

/-- C9: an explicit ValidationError is classified with its own tag; any
other non-nil error is pattern-matched against the transient and permanent
signatures, and defaults to Retryable when it matches no known
signature. -/
theorem classifyError_spec :
    (∀ t m, classifyError (some (.validation t m)) = t)
    ∧ (∀ msg, retryableSignature msg = true →
        classifyError (some (.generic msg)) = FailureTypeRetryable)
    ∧ (∀ msg, retryableSignature msg = false → permanentSignature msg = true →
        classifyError (some (.generic msg)) = FailureTypePermanent)
    ∧ ∀ msg, retryableSignature msg = false → permanentSignature msg = false →
        classifyError (some (.generic msg)) = FailureTypeRetryable := by
  refine ⟨fun _ _ => rfl, ?_, ?_, ?_⟩
  · intro msg h
    simp [classifyError, h]
  · intro msg h₁ h₂
    simp [classifyError, h₁, h₂]
  · intro msg h₁ h₂
    simp [classifyError, h₁, h₂]

/-- C9 witness: the theorem applied to a concrete tagged validation error
and to a concrete error text matching no known signature. -/
theorem classifyError_spec_witness :
    classifyError (some (.validation FailureTypeValidation "parent not ready")) =
      FailureTypeValidation
    ∧ classifyError (some (.generic "mysterious database hiccup")) =
      FailureTypeRetryable :=
  ⟨classifyError_spec.1 FailureTypeValidation "parent not ready",
    classifyError_spec.2.2.2 "mysterious database hiccup" (by decide) (by decide)⟩

/-! ## Renderer dispatch (internal/img/generator.go) -/

inductive GeneratorKind where
  | image
  | video
  | pdf
deriving DecidableEq, Repr

/-- GetGenerator routes a MIME type to a thumbnail generator or reports an
unsupported type. -/
def GetGenerator (mimeType : String) : Except String GeneratorKind :=
  let m := goToLower mimeType
  if goHasPre m "image/" then .ok .image
  else if goHasPre m "video/" then .ok .video
  else if m = "application/pdf" then .ok .pdf
  else .error ("unsupported MIME type: " ++ m ++
    " (supported: image/*, video/*, application/pdf)")

/-- The generator selection performed inside handleJob: on a GetGenerator
error the worker logs a warning and falls back to the image generator; the
Bool records that the fallback warning was logged. -/
def selectGenerator (mimeType : String) : GeneratorKind × Bool :=
  match GetGenerator mimeType with
  | .ok g => (g, false)
  | .error _ => (.image, true)

/-! ## Thumbnail size configuration and hint parsing (cmd/worker/main.go) -/

structure SizeConfig where
  name : String
  width : Nat
  height : Nat
deriving DecidableEq, Repr

/-- The predefined thumbnail sizes LoadConfig installs when the
THUMBNAIL_SIZES environment variable is not set. -/
def defaultThumbnailSizes : List SizeConfig :=
  [⟨"small", 150, 150⟩, ⟨"medium", 512, 512⟩, ⟨"large", 1024, 1024⟩]

/-- Reading a key from a Go map of hints: absent keys yield the empty
string, as a Go map index does. -/
def lookupHint (hints : List (String × String)) (key : String) : String :=
  match hints.lookup key with
  | some v => v
  | none => ""

/-- parseThumbnailSizesHint filters the available sizes down to the ones
named by the comma-separated thumbnail_sizes hint; a nil hints map, an
empty hint and a hint matching nothing all fall back to the full set. -/
def parseThumbnailSizesHint (hints : Option (List (String × String)))
    (availableSizes : List SizeConfig) : List SizeConfig :=
  match hints with
  | none => availableSizes
  | some hs =>
    let sizesHint := lookupHint hs "thumbnail_sizes"
    if sizesHint = "" then availableSizes
    else
      let requestedSizes := goSplit sizesHint ','
      let selectedSizes := requestedSizes.foldl
        (fun acc requested =>
          match availableSizes.find? (fun av => av.name = goTrim requested) with
          | some av => acc ++ [av]
          | none => acc) []
      if selectedSizes = [] then availableSizes else selectedSizes

theorem parseThumbnailSizesHint_foldl_subset
    (availableSizes : List SizeConfig) :
    ∀ (reqs : List String) (acc : List SizeConfig),
      (∀ s ∈ acc, s ∈ availableSizes) →
      ∀ s ∈ reqs.foldl
        (fun acc requested =>
          match availableSizes.find? (fun av => av.name = goTrim requested) with
          | some av => acc ++ [av]
          | none => acc) acc, s ∈ availableSizes := by
  intro reqs
  induction reqs with
  | nil => intro acc hacc s hs; exact hacc s hs
  | cons r rs ih =>
    intro acc hacc s hs
    rw [List.foldl_cons] at hs
    rcases hfind : availableSizes.find? (fun av => av.name = goTrim r) with _ | av
    · rw [hfind] at hs
      exact ih acc hacc s hs
    · rw [hfind] at hs
      refine ih _ ?_ s hs
      intro u hu
      rcases List.mem_append.1 hu with hu | hu
      · exact hacc u hu
      · rw [List.mem_singleton.1 hu]
        exact List.mem_of_find?_eq_some hfind

theorem parseThumbnailSizesHint_foldl_nomatch
    (availableSizes : List SizeConfig) :
    ∀ (reqs : List String) (acc : List SizeConfig),
      (∀ r ∈ reqs, availableSizes.find? (fun av => av.name = goTrim r) = none) →
      reqs.foldl
        (fun acc requested =>
          match availableSizes.find? (fun av => av.name = goTrim requested) with
          | some av => acc ++ [av]
          | none => acc) acc = acc := by
  intro reqs
  induction reqs with
  | nil => intro acc _; rfl
  | cons r rs ih =>
    intro acc hnone
    rw [List.foldl_cons, hnone r (List.mem_cons_self r rs)]
    exact ih acc fun u hu => hnone u (List.mem_cons_of_mem r hu)

/-- C7: the thumbnail_sizes hint filters the configured default set down to
the named subset; everything it selects comes from the available set, a nil
hints map, an empty hint or a hint matching no configured name fall back to
the full set, and the hint small,large against the default set selects
exactly small and large. -/
theorem parseThumbnailSizesHint_spec :
    (∀ availableSizes, parseThumbnailSizesHint none availableSizes = availableSizes)
    ∧ (∀ hs availableSizes, lookupHint hs "thumbnail_sizes" = "" →
        parseThumbnailSizesHint (some hs) availableSizes = availableSizes)
    ∧ (∀ hs availableSizes s, s ∈ parseThumbnailSizesHint (some hs) availableSizes →
        s ∈ availableSizes)
    ∧ (∀ hs availableSizes,
        (∀ r ∈ goSplit (lookupHint hs "thumbnail_sizes") ',',
          availableSizes.find? (fun av => av.name = goTrim r) = none) →
        parseThumbnailSizesHint (some hs) availableSizes = availableSizes)
    ∧ parseThumbnailSizesHint (some [("thumbnail_sizes", "small,large")])
        defaultThumbnailSizes = [⟨"small", 150, 150⟩, ⟨"large", 1024, 1024⟩] := by
  refine ⟨fun _ => rfl, ?_, ?_, ?_, by decide⟩
  · intro hs availableSizes h
    simp [parseThumbnailSizesHint, h]
  · intro hs availableSizes s hs'
    rw [parseThumbnailSizesHint] at hs'
    by_cases hempty : lookupHint hs "thumbnail_sizes" = ""
    · rw [if_pos hempty] at hs'
      exact hs'
    · rw [if_neg hempty] at hs'
      by_cases hsel : (goSplit (lookupHint hs "thumbnail_sizes") ',').foldl
          (fun acc requested =>
            match availableSizes.find? (fun av => av.name = goTrim requested) with
            | some av => acc ++ [av]
            | none => acc) [] = []
      · rw [if_pos hsel] at hs'
        exact hs'
      · rw [if_neg hsel] at hs'
        exact parseThumbnailSizesHint_foldl_subset availableSizes _ []
          (by intro u hu; cases hu) s hs'
  · intro hs availableSizes hnone
    simp only [parseThumbnailSizesHint]
    by_cases hempty : lookupHint hs "thumbnail_sizes" = ""
    · rw [if_pos hempty]
    · rw [if_neg hempty,
        parseThumbnailSizesHint_foldl_nomatch availableSizes _ [] hnone, if_pos rfl]

/-- C7 witness: the theorem applied to a hints map lacking thumbnail_sizes,
to a hint naming nothing, and to the concrete small,large scenario. -/
theorem parseThumbnailSizesHint_spec_witness :
    parseThumbnailSizesHint (some [("other", "x")]) defaultThumbnailSizes =
      defaultThumbnailSizes
    ∧ parseThumbnailSizesHint (some [("thumbnail_sizes", "giant")])
        defaultThumbnailSizes = defaultThumbnailSizes
    ∧ parseThumbnailSizesHint (some [("thumbnail_sizes", "small,large")])
        defaultThumbnailSizes = [⟨"small", 150, 150⟩, ⟨"large", 1024, 1024⟩] :=
  ⟨parseThumbnailSizesHint_spec.2.1 [("other", "x")] defaultThumbnailSizes (by decide),
    parseThumbnailSizesHint_spec.2.2.2.1 [("thumbnail_sizes", "giant")]
      defaultThumbnailSizes (by decide),
    parseThumbnailSizesHint_spec.2.2.2.2⟩

/-! ## Reconciliation scanner, status-repair mode (cmd/backfill/main.go) -/

/-- time.Hour expressed in nanoseconds, the unit of time.Duration. -/
def nanosPerHour : Nat := 3600 * 1000000000

/-- The statuses buildFilters restricts the scan to: non-terminal derived
statuses plus the legacy uploaded status. -/
def backfillStatuses : List String :=
  [ContentStatusCreated, ContentStatusProcessing, ContentStatusUploaded]

/-- The transition fixDerivedContentStatus applies to one record. -/
inductive FixAction where
  | markedFailed
  | updatedTo (newStatus : String)
  | unchanged
deriving DecidableEq, Repr

/-- fixDerivedContentStatus from cmd/backfill/main.go, as the decision it
takes for one derived record: currentStatus is the record's status,
sinceUpdate is time.Since(UpdatedAt) in nanoseconds, and objects holds the
statuses GetObjectsByContentID returns (its error case is the .error
branch). The UpdateContentStatus write that carries the decision out is
assumed to succeed; its failure would surface the same decision as an
error. -/
def fixDerivedContentStatus (currentStatus : String) (sinceUpdate : Nat)
    (objects : Except String (List String)) : Except String FixAction :=
  if (currentStatus = ContentStatusCreated ∨ currentStatus = ContentStatusProcessing)
      ∧ nanosPerHour < sinceUpdate then
    .ok .markedFailed
  else
    match objects with
    | .error e => .error ("failed to get objects: " ++ e)
    | .ok objs =>
      if objs = [] then .ok .unchanged
      else
        let allUploaded := objs.all fun o => o = ObjectStatusUploaded
        let targetStatus :=
          if allUploaded then ContentStatusProcessed else ContentStatusCreated
        if currentStatus ≠ targetStatus then .ok (.updatedTo targetStatus)
        else .ok .unchanged

/-- C4: a record scanned by status-repair mode that is stuck at created or
processing past the one-hour staleness threshold is force-transitioned to
failed; otherwise a record whose backing objects are all confirmed uploaded
is force-transitioned to processed, and a record with no backing object is
left unchanged. -/
theorem fixDerivedContentStatus_spec :
    ∀ status sinceUpdate objs, status ∈ backfillStatuses →
      (((status = ContentStatusCreated ∨ status = ContentStatusProcessing)
          ∧ nanosPerHour < sinceUpdate) →
        fixDerivedContentStatus status sinceUpdate (.ok objs) = .ok .markedFailed)
      ∧ (¬ ((status = ContentStatusCreated ∨ status = ContentStatusProcessing)
          ∧ nanosPerHour < sinceUpdate) →
        objs ≠ [] → (objs.all fun o => o = ObjectStatusUploaded) = true →
        fixDerivedContentStatus status sinceUpdate (.ok objs) =
          .ok (.updatedTo ContentStatusProcessed))
      ∧ (¬ ((status = ContentStatusCreated ∨ status = ContentStatusProcessing)
          ∧ nanosPerHour < sinceUpdate) →
        objs = [] →
        fixDerivedContentStatus status sinceUpdate (.ok objs) = .ok .unchanged) := by
  intro status sinceUpdate objs hmem
  refine ⟨fun hstale => by rw [fixDerivedContentStatus, if_pos hstale], ?_, ?_⟩
  · intro hfresh hne hall
    have hne' : status ≠ ContentStatusProcessed := by
      simp only [backfillStatuses, List.mem_cons, List.not_mem_nil, or_false] at hmem
      rcases hmem with h | h | h <;> rw [h] <;> decide
    rw [fixDerivedContentStatus, if_neg hfresh]
    simp only [hall, if_neg hne, if_true]
    rw [if_pos hne']
  · intro hfresh hnil
    rw [fixDerivedContentStatus, if_neg hfresh]
    subst hnil
    simp

/-- C4 witness: the theorem applied to a processing record stuck for two
hours, to a fresh created record with one uploaded backing object, and to a
fresh processing record with no backing object. -/
theorem fixDerivedContentStatus_spec_witness :
    fixDerivedContentStatus ContentStatusProcessing (2 * nanosPerHour)
      (.ok [ObjectStatusUploaded]) = .ok .markedFailed
    ∧ fixDerivedContentStatus ContentStatusCreated 0 (.ok [ObjectStatusUploaded]) =
      .ok (.updatedTo ContentStatusProcessed)
    ∧ fixDerivedContentStatus ContentStatusProcessing 0 (.ok []) = .ok .unchanged :=
  ⟨(fixDerivedContentStatus_spec ContentStatusProcessing (2 * nanosPerHour)
      [ObjectStatusUploaded] (by decide)).1 (by constructor <;> [right; skip] <;> first | rfl | (rw [nanosPerHour]; omega)),
    (fixDerivedContentStatus_spec ContentStatusCreated 0
      [ObjectStatusUploaded] (by decide)).2.1 (by rw [nanosPerHour]; omega) (by decide) (by decide),
    (fixDerivedContentStatus_spec ContentStatusProcessing 0
      [] (by decide)).2.2 (by rw [nanosPerHour]; omega) rfl⟩

/-- C10: a scanned record that is not past the staleness threshold and has
at least one backing object, not all of them uploaded, has its status set
to created; in particular a record currently at processing is moved
backwards to created. -/
theorem fixDerivedContentStatus_downgrade :
    ∀ status sinceUpdate objs, status ∈ backfillStatuses →
      ¬ ((status = ContentStatusCreated ∨ status = ContentStatusProcessing)
          ∧ nanosPerHour < sinceUpdate) →
      objs ≠ [] → (objs.all fun o => o = ObjectStatusUploaded) = false →
      fixDerivedContentStatus status sinceUpdate (.ok objs) =
        .ok (if status = ContentStatusCreated then .unchanged
          else .updatedTo ContentStatusCreated) := by
  intro status sinceUpdate objs hmem hfresh hne hnotall
  rw [fixDerivedContentStatus, if_neg hfresh]
  simp only [hnotall, if_neg hne, Bool.false_eq_true, if_false]
  by_cases hcr : status = ContentStatusCreated
  · rw [if_pos hcr, if_neg (by simp [hcr])]
  · rw [if_neg hcr, if_pos hcr]

/-- C10 witness: the theorem applied to a fresh processing record with one
backing object still at created. -/
theorem fixDerivedContentStatus_downgrade_witness :
    fixDerivedContentStatus ContentStatusProcessing 0 (.ok ["created"]) =
      .ok (.updatedTo ContentStatusCreated) := by
  have := fixDerivedContentStatus_downgrade ContentStatusProcessing 0 ["created"]
    (by decide) (by rw [nanosPerHour]; omega) (by decide) (by decide)
  simpa using this

/-! ## Backfill run effects and dry-run (cmd/backfill/main.go main) -/

/-- One externally visible mutation or publish of a backfill run. -/
inductive ScanEffect where
  | statusUpdate (contentId : Nat) (newStatus : String)
  | publishJob (contentId : Nat)
deriving DecidableEq, Repr

/-- A derived record as the scanner sees it. -/
structure ScannedContent where
  id : Nat
  derivationType : String
  status : String
  sinceUpdate : Nat
  objectStatuses : List String
deriving DecidableEq, Repr

/-- The store mutations ThumbnailJobProcessor.Process performs on one
scanned record: non-thumbnail content is skipped, otherwise the
fixDerivedContentStatus decision is applied. -/
def processorEffects (c : ScannedContent) : List ScanEffect :=
  if c.derivationType ≠ "thumbnail" then []
  else
    match fixDerivedContentStatus c.status c.sinceUpdate (.ok c.objectStatuses) with
    | .ok .markedFailed => [.statusUpdate c.id ContentStatusFailed]
    | .ok (.updatedTo s) => [.statusUpdate c.id s]
    | .ok .unchanged => []
    | .error _ => []

/-- Modelled from the spec: scan.Scan of the external simple-content
library (not part of this repository) drives the pluggable per-item
processor over the scanned records; in dry-run mode it reports intended
actions and mutates nothing, and with no processor installed it performs no
per-item effects. -/
def scanScan (processor : Option (ScannedContent → List ScanEffect))
    (dryRun : Bool) (items : List ScannedContent) : List ScanEffect :=
  if dryRun then []
  else
    match processor with
    | none => []
    | some p => (items.map p).flatten

/-- The mutation/publish effects of one backfill run (cmd/backfill/main.go
main): in dry-run mode no NATS connection is opened and no processor is
constructed before the scan is started. -/
def backfillRun (dryRun : Bool) (items : List ScannedContent) : List ScanEffect :=
  let processor := if dryRun then none else some processorEffects
  scanScan processor dryRun items

/-- C5: a reconciliation scan in dry-run mode mutates no record status and
publishes no job, whatever the scanned records contain. -/
theorem backfillRun_dryRun_no_effects :
    ∀ items, backfillRun true items = [] := by
  intro items
  rfl

/-! ## Job pipeline (handleJob, cmd/worker/main.go)

The content store, bus and renderers are collaborators; their responses for
one job are supplied in an Env value. Derived-content IDs are opaque UUIDs
assigned by the store; the model names each one by the size it belongs to,
which is also how the worker keys its DerivedContentIDs map. -/

structure Parent where
  id : String
  status : String
deriving DecidableEq, Repr

structure SourceInfo where
  filename : String
  mimeType : String
deriving DecidableEq, Repr

/-- One derived placeholder record as held by the content store. -/
structure DerivedRec where
  sizeName : String
  variant : String
  status : String
deriving DecidableEq, Repr

/-- img.ThumbnailOutput (the rendered file path is not modelled; the fitted
dimensions are carried through from the renderer). -/
structure ThumbnailOutput where
  name : String
  width : Nat
  height : Nat
  sourceWidth : Nat
  sourceHeight : Nat
deriving DecidableEq, Repr

/-- schema.ThumbnailResult restricted to the fields the events report about
each size (derivation parameters carry no lifecycle information). -/
structure ThumbnailResult where
  size : String
  contentId : String
  width : Nat
  height : Nat
  status : String
deriving DecidableEq, Repr

/-- schema.ThumbnailDone restricted to the aggregate fields. -/
structure ThumbnailDone where
  id : String
  totalProcessed : Nat
  totalFailed : Nat
  results : List ThumbnailResult
  error : String
  failureType : String
deriving DecidableEq, Repr

/-- The collaborator responses for one job: the GetContent reply, the index
at which CreateDerivedContent fails (none = all succeed), the FetchSource
reply, the source dimensions the renderer reports, whether the batch
processing-status update succeeds, the Generate reply, and the per-size
outcomes of UploadThumbnailObject and of the per-size processed-status
update. -/
structure Env where
  getContent : Except GoError Parent
  createFailsAt : Option Nat
  fetchSource : Except GoError SourceInfo
  sourceWidth : Nat
  sourceHeight : Nat
  processingUpdateOk : Bool
  generateOk : Option GoError
  uploadOk : String → Bool
  processedUpdateOk : String → Bool

/-- What one handleJob invocation did: its return value's classification,
the derived records existing right before the source fetch, the derived
records at the end (the store contents), the published terminal event, and
whether the renderer fallback warning was logged. -/
structure Outcome where
  ok : Bool
  failureType : String
  recordsBeforeFetch : List DerivedRec
  records : List DerivedRec
  event : ThumbnailDone
  fellBackToImage : Bool
  generatorUsed : GeneratorKind
deriving Repr

/-- validateParentContentStep requires the parent to be uploaded. -/
def validateParentContentStep (parent : Parent) : Option GoError :=
  if parent.status ≠ ContentStatusUploaded then
    some (.validation FailureTypeValidation
      ("parent content status is " ++ parent.status ++ ", expected " ++
        ContentStatusUploaded))
  else none

/-- The placeholder record CreateDerivedContent installs for one size. -/
def placeholderRec (s : SizeConfig) : DerivedRec :=
  ⟨s.name, deriveSizeVariant s.width s.height, ContentStatusCreated⟩

/-- createDerivedContentRecords: one placeholder with status created per
size, in order; when the store call for the k-th size fails the first k
placeholders already exist and the job aborts. -/
def createDerivedContentRecords (thumbnailSizes : List SizeConfig)
    (createFailsAt : Option Nat) : List DerivedRec × Option GoError :=
  match createFailsAt with
  | none => (thumbnailSizes.map placeholderRec, none)
  | some k =>
    if h : k < thumbnailSizes.length then
      ((thumbnailSizes.take k).map placeholderRec,
        some (.generic ("create derived content for size " ++
          (thumbnailSizes.get ⟨k, h⟩).name)))
    else (thumbnailSizes.map placeholderRec, none)

/-- updateDerivedContentStatusAfterDownload moves every placeholder to
processing once the source bytes are local. -/
def updateDerivedContentStatusAfterDownload (recs : List DerivedRec) : List DerivedRec :=
  recs.map fun r => { r with status := ContentStatusProcessing }

/-- UpdateContentStatus on the record a size name designates. -/
def setRecStatus (recs : List DerivedRec) (sizeName newStatus : String) : List DerivedRec :=
  recs.map fun r =>
    if r.sizeName = sizeName then { r with status := newStatus } else r

/-- The per-size result uploadResultsStep appends after a successful upload
and status update. -/
def processedResult (t : ThumbnailOutput) : ThumbnailResult :=
  { size := t.name, contentId := t.name, width := t.width, height := t.height,
    status := "processed" }

/-- The per-size result uploadResultsStep appends when the upload or the
processed-status update fails; the store record is not touched. -/
def failedResult (t : ThumbnailOutput) : ThumbnailResult :=
  { size := t.name, contentId := "", width := t.width, height := t.height,
    status := "failed" }

/-- uploadResultsStep: per thumbnail, look up the derived record, upload,
and on success transition that record to processed; a failed upload or
failed status update records a failed result for that size and continues
with the remaining sizes. A missing derived record aborts the whole step
(the store keeps whatever was already transitioned). -/
def uploadResultsStep (uploadOk updOk : String → Bool) :
    List ThumbnailOutput → List DerivedRec →
      List DerivedRec × Except GoError (List ThumbnailResult)
  | [], recs => (recs, .ok [])
  | t :: ts, recs =>
    if (recs.find? fun r => r.sizeName = t.name).isSome then
      if uploadOk t.name && updOk t.name then
        let recs1 := setRecStatus recs t.name ContentStatusProcessed
        match uploadResultsStep uploadOk updOk ts recs1 with
        | (recs2, .ok rs) => (recs2, .ok (processedResult t :: rs))
        | (recs2, .error e) => (recs2, .error e)
      else
        match uploadResultsStep uploadOk updOk ts recs with
        | (recs2, .ok rs) => (recs2, .ok (failedResult t :: rs))
        | (recs2, .error e) => (recs2, .error e)
    else
      (recs, .error (.generic ("derived content ID not found for size " ++ t.name)))

/-- publishEventsStep builds the terminal ThumbnailDone event: the
aggregate counts are the length of the results slice and the number of
results whose status is not processed. -/
def publishEventsStep (jobId : String) (results : List ThumbnailResult)
    (cause : Option GoError) (failureType : String) : ThumbnailDone :=
  { id := jobId
    totalProcessed := results.length
    totalFailed := (results.filter fun r => r.status ≠ "processed").length
    results := results
    error := (match cause with | some e => e.message | none => "")
    failureType := failureType }

/-- A failure return of handleJob: the classified error is both returned
and published in the terminal event, with no per-size results. -/
def failureOutcome (jobId : String) (e : GoError)
    (recsBefore recs : List DerivedRec) (fellBack : Bool)
    (gen : GeneratorKind) : Outcome :=
  let ft := classifyError (some e)
  { ok := false, failureType := ft, recordsBeforeFetch := recsBefore,
    records := recs, event := publishEventsStep jobId [] (some e) ft,
    fellBackToImage := fellBack, generatorUsed := gen }

/-- handleJob, from content fetch onwards (the job envelope has already
yielded a parseable content id): validate the parent, create placeholders,
fetch the source, move placeholders to processing, select a generator
(falling back to the image generator with a warning), generate, upload each
output, and publish the terminal event. When the batch processing-status
update fails the model fails before any record changed (the Go map
iteration order behind that loop is unspecified). -/
def handleJob (cfg : List SizeConfig) (jobId : String)
    (hints : Option (List (String × String))) (env : Env) : Outcome :=
  let thumbnailSizes := parseThumbnailSizesHint hints cfg
  match env.getContent with
  | .error e => failureOutcome jobId e [] [] false .image
  | .ok parent =>
    match validateParentContentStep parent with
    | some e => failureOutcome jobId e [] [] false .image
    | none =>
      match createDerivedContentRecords thumbnailSizes env.createFailsAt with
      | (recs, some e) => failureOutcome jobId e recs recs false .image
      | (recs, none) =>
        match env.fetchSource with
        | .error e => failureOutcome jobId e recs recs false .image
        | .ok source =>
          if env.processingUpdateOk then
            let recs1 := updateDerivedContentStatusAfterDownload recs
            let sel := selectGenerator source.mimeType
            match env.generateOk with
            | some e => failureOutcome jobId e recs recs1 sel.2 sel.1
            | none =>
              let thumbs := thumbnailSizes.map fun s =>
                { name := s.name, width := s.width, height := s.height,
                  sourceWidth := env.sourceWidth,
                  sourceHeight := env.sourceHeight : ThumbnailOutput }
              match uploadResultsStep env.uploadOk env.processedUpdateOk thumbs recs1 with
              | (recs2, .error e) => failureOutcome jobId e recs recs2 sel.2 sel.1
              | (recs2, .ok results) =>
                { ok := true, failureType := "", recordsBeforeFetch := recs,
                  records := recs2,
                  event := publishEventsStep jobId results none "",
                  fellBackToImage := sel.2, generatorUsed := sel.1 }
          else
            failureOutcome jobId (.generic "update derived content status failed")
              recs recs false .image

/-- The (size name, variant) identity of a derived record; statuses change,
identities do not. -/
def recKey (r : DerivedRec) : String × String := (r.sizeName, r.variant)

theorem setRecStatus_key (recs : List DerivedRec) (n s : String) :
    (setRecStatus recs n s).map recKey = recs.map recKey := by
  rw [setRecStatus, List.map_map]
  apply List.map_congr_left
  intro r _
  by_cases h : r.sizeName = n <;> simp [recKey, Function.comp, h]

theorem setRecStatus_names (recs : List DerivedRec) (n s : String) :
    (setRecStatus recs n s).map (fun r => r.sizeName) =
      recs.map fun r => r.sizeName := by
  rw [setRecStatus, List.map_map]
  apply List.map_congr_left
  intro r _
  by_cases h : r.sizeName = n <;> simp [Function.comp, h]

theorem updateAfterDownload_key (recs : List DerivedRec) :
    (updateDerivedContentStatusAfterDownload recs).map recKey = recs.map recKey := by
  rw [updateDerivedContentStatusAfterDownload, List.map_map]
  rfl

/-- uploadResultsStep only ever rewrites statuses: the record identities in
the store are untouched, whatever succeeds or fails. -/
theorem uploadResultsStep_fst_key (u v : String → Bool) :
    ∀ (thumbs : List ThumbnailOutput) (recs : List DerivedRec),
      ((uploadResultsStep u v thumbs recs).1).map recKey = recs.map recKey := by
  intro thumbs
  induction thumbs with
  | nil => intro recs; rfl
  | cons t ts ih =>
    intro recs
    rw [uploadResultsStep]
    split
    · split
      · rcases hrec : uploadResultsStep u v ts
            (setRecStatus recs t.name ContentStatusProcessed) with ⟨a, b⟩
        have ha := ih (setRecStatus recs t.name ContentStatusProcessed)
        rw [hrec] at ha
        cases b <;> simp only [hrec] <;>
          exact ha.trans (setRecStatus_key recs t.name ContentStatusProcessed)
      · rcases hrec : uploadResultsStep u v ts recs with ⟨a, b⟩
        have ha := ih recs
        rw [hrec] at ha
        cases b <;> simp only [hrec] <;> exact ha
    · rfl

/-- A collaborator environment in which every step succeeds. -/
def envOkBase : Env :=
  { getContent := .ok ⟨"p1", ContentStatusUploaded⟩
    createFailsAt := none
    fetchSource := .ok ⟨"src.png", "image/png"⟩
    sourceWidth := 100
    sourceHeight := 80
    processingUpdateOk := true
    generateOk := none
    uploadOk := fun _ => true
    processedUpdateOk := fun _ => true }

/-- C2: a job whose parent asset is fetched but is not in the uploaded
status fails with a Validation classification, both in the return value and
in the published event, and creates zero derived records: parent validation
strictly precedes placeholder creation. -/
theorem handleJob_parent_not_ready :
    ∀ cfg jobId hints env parent,
      env.getContent = .ok parent →
      parent.status ≠ ContentStatusUploaded →
      (handleJob cfg jobId hints env).ok = false
      ∧ (handleJob cfg jobId hints env).failureType = FailureTypeValidation
      ∧ (handleJob cfg jobId hints env).event.failureType = FailureTypeValidation
      ∧ (handleJob cfg jobId hints env).records = []
      ∧ (handleJob cfg jobId hints env).recordsBeforeFetch = [] := by
  intro cfg jobId hints env parent hget hstatus
  have hval : validateParentContentStep parent =
      some (.validation FailureTypeValidation
        ("parent content status is " ++ parent.status ++ ", expected " ++
          ContentStatusUploaded)) := by
    rw [validateParentContentStep, if_pos hstatus]
  simp [handleJob, hget, hval, failureOutcome, publishEventsStep, classifyError]

/-- C2 witness: the theorem applied to a parent still at created. -/
theorem handleJob_parent_not_ready_witness :
    (handleJob defaultThumbnailSizes "job-w2" none
      { envOkBase with getContent := .ok ⟨"p1", ContentStatusCreated⟩ }).records = []
    ∧ (handleJob defaultThumbnailSizes "job-w2" none
      { envOkBase with getContent := .ok ⟨"p1", ContentStatusCreated⟩ }).failureType =
        FailureTypeValidation :=
  ⟨(handleJob_parent_not_ready defaultThumbnailSizes "job-w2" none
      { envOkBase with getContent := .ok ⟨"p1", ContentStatusCreated⟩ }
      ⟨"p1", ContentStatusCreated⟩ rfl (by decide)).2.2.2.1,
    (handleJob_parent_not_ready defaultThumbnailSizes "job-w2" none
      { envOkBase with getContent := .ok ⟨"p1", ContentStatusCreated⟩ }
      ⟨"p1", ContentStatusCreated⟩ rfl (by decide)).2.1⟩

/-- C3: with a ready parent and all CreateDerivedContent calls succeeding,
the pipeline creates exactly one placeholder per resolved size, each with
initial status created, before the source bytes are fetched; afterwards the
record set keeps exactly those (name, variant) identities in every branch,
only statuses changing. -/
theorem handleJob_placeholder_records :
    ∀ cfg jobId hints env parent,
      env.getContent = .ok parent →
      parent.status = ContentStatusUploaded →
      env.createFailsAt = none →
      (handleJob cfg jobId hints env).recordsBeforeFetch =
        (parseThumbnailSizesHint hints cfg).map placeholderRec
      ∧ (∀ r ∈ (handleJob cfg jobId hints env).recordsBeforeFetch,
          r.status = ContentStatusCreated)
      ∧ (handleJob cfg jobId hints env).records.map recKey =
          (parseThumbnailSizesHint hints cfg).map fun s =>
            (s.name, deriveSizeVariant s.width s.height) := by
  intro cfg jobId hints env parent hget hstatus hcreate
  have hval : validateParentContentStep parent = none := by
    rw [validateParentContentStep, if_neg fun h => h hstatus]
  have hplace : ∀ r ∈ (parseThumbnailSizesHint hints cfg).map placeholderRec,
      r.status = ContentStatusCreated := by
    intro r hr
    rcases List.mem_map.1 hr with ⟨s, _, rfl⟩
    rfl
  have hkeyplace : ((parseThumbnailSizesHint hints cfg).map placeholderRec).map recKey =
      (parseThumbnailSizesHint hints cfg).map fun s =>
        (s.name, deriveSizeVariant s.width s.height) := by
    rw [List.map_map]
    rfl
  simp only [handleJob, hget, hval, hcreate, createDerivedContentRecords]
  rcases hfetch : env.fetchSource with e | src
  · exact ⟨rfl, hplace, hkeyplace⟩
  · dsimp only
    rcases hproc : env.processingUpdateOk
    · try dsimp only
      exact ⟨rfl, hplace, hkeyplace⟩
    · try dsimp only
      rcases hgen : env.generateOk with _ | e
      · dsimp only
        rcases hupl : uploadResultsStep env.uploadOk env.processedUpdateOk
          ((parseThumbnailSizesHint hints cfg).map fun s =>
            { name := s.name, width := s.width, height := s.height,
              sourceWidth := env.sourceWidth,
              sourceHeight := env.sourceHeight : ThumbnailOutput })
          (updateDerivedContentStatusAfterDownload
            ((parseThumbnailSizesHint hints cfg).map placeholderRec)) with ⟨recs2, rse⟩
        have hkey2 : recs2.map recKey =
            (parseThumbnailSizesHint hints cfg).map fun s =>
              (s.name, deriveSizeVariant s.width s.height) := by
          have hfst := uploadResultsStep_fst_key env.uploadOk env.processedUpdateOk
            ((parseThumbnailSizesHint hints cfg).map fun s =>
              { name := s.name, width := s.width, height := s.height,
                sourceWidth := env.sourceWidth,
                sourceHeight := env.sourceHeight : ThumbnailOutput })
            (updateDerivedContentStatusAfterDownload
              ((parseThumbnailSizesHint hints cfg).map placeholderRec))
          rw [hupl] at hfst
          exact hfst.trans (by rw [updateAfterDownload_key, hkeyplace])
        cases rse <;> simp only [hupl] <;> exact ⟨rfl, hplace, hkey2⟩
      · dsimp only
        exact ⟨rfl, hplace, by
          show (updateDerivedContentStatusAfterDownload
            ((parseThumbnailSizesHint hints cfg).map placeholderRec)).map recKey = _
          rw [updateAfterDownload_key, hkeyplace]⟩

/-- Full behaviour of uploadResultsStep when every thumbnail has its
derived record: the step never aborts, each record whose size uploaded и
updated successfully moves to processed (others keep their status), and one
result per thumbnail is reported, processed on success and failed
otherwise. -/
theorem uploadResultsStep_spec (u v : String → Bool) :
    ∀ (thumbs : List ThumbnailOutput) (recs : List DerivedRec),
      (∀ t ∈ thumbs, t.name ∈ recs.map fun r => r.sizeName) →
      uploadResultsStep u v thumbs recs =
        (recs.map fun r =>
          if thumbs.any fun t => t.name = r.sizeName && u t.name && v t.name
          then { r with status := ContentStatusProcessed } else r,
        .ok (thumbs.map fun t =>
          if u t.name && v t.name then processedResult t else failedResult t)) := by
  intro thumbs
  induction thumbs with
  | nil =>
    intro recs _
    simp [uploadResultsStep]
  | cons t ts ih =>
    intro recs hcov
    have hmem : t.name ∈ recs.map fun r => r.sizeName :=
      hcov t (List.mem_cons_self t ts)
    have hfind : ((recs.find? fun r => r.sizeName = t.name).isSome : Bool) = true := by
      rcases h : recs.find? fun r => r.sizeName = t.name with _ | r'
      · exfalso
        rcases List.mem_map.1 hmem with ⟨r, hr, hname⟩
        have := List.find?_eq_none.1 h r hr
        simp [hname] at this
      · rw [h]
        rfl
    rw [uploadResultsStep, if_pos hfind]
    by_cases h2 : (u t.name && v t.name) = true
    · rw [if_pos h2]
      have hcov1 : ∀ t' ∈ ts, t'.name ∈
          (setRecStatus recs t.name ContentStatusProcessed).map fun r => r.sizeName := by
        intro t' ht'
        rw [setRecStatus_names]
        exact hcov t' (List.mem_cons_of_mem t ht')
      dsimp only
      rw [ih _ hcov1]
      refine congrArg₂ Prod.mk ?_ ?_
      · rw [setRecStatus, List.map_map]
        apply List.map_congr_left
        intro r _
        dsimp only [Function.comp]
        by_cases hname : r.sizeName = t.name
        · have hcond : ((t :: ts).any fun x =>
              x.name = r.sizeName && u x.name && v x.name) = true := by
            rw [List.any_cons, Bool.or_eq_true]
            refine Or.inl ?_
            simp only [Bool.and_eq_true, decide_eq_true_eq]
            have h2' := h2
            rw [Bool.and_eq_true] at h2'
            exact ⟨⟨hname.symm, h2'.1⟩, h2'.2⟩
          rw [if_pos hname]
          dsimp only
          rw [ite_self, if_pos hcond]
        · have hfalse : (decide (t.name = r.sizeName) && u t.name && v t.name) = false := by
            have hd : decide (t.name = r.sizeName) = false :=
              decide_eq_false fun hx => hname hx.symm
            rw [hd, Bool.false_and, Bool.false_and]
          rw [if_neg hname, List.any_cons, hfalse, Bool.false_or]
      · rw [List.map_cons, if_pos h2]
    · rw [if_neg h2]
      rw [ih _ fun t' ht' => hcov t' (List.mem_cons_of_mem t ht')]
      have h2f : (u t.name && v t.name) = false := by
        cases h : u t.name && v t.name
        · rfl
        · exact absurd h h2
      refine congrArg₂ Prod.mk ?_ ?_
      · apply List.map_congr_left
        intro r _
        have hfalse : (decide (t.name = r.sizeName) && u t.name && v t.name) = false := by
          rw [Bool.and_assoc, h2f, Bool.and_false]
        rw [List.any_cons, hfalse, Bool.false_or]
      · rw [List.map_cons, if_neg h2]

theorem countP_eq_one_of_nodup_mem :
    ∀ (l : List String) (a : String), l.Nodup → a ∈ l →
      l.countP (fun x => x = a) = 1 := by
  intro l
  induction l with
  | nil => intro a _ ha; cases ha
  | cons b t ih =>
    intro a hnd ha
    rw [List.countP_cons]
    rcases List.mem_cons.1 ha with rfl | ha'
    · have hnotin : a ∉ t := (List.nodup_cons.1 hnd).1
      have hzero : t.countP (fun x => x = a) = 0 := by
        rw [List.countP_eq_zero]
        intro x hx
        simp only [decide_eq_true_eq]
        exact fun hxa => hnotin (hxa ▸ hx)
      simp [hzero]
    · have hne : (b = a) = False := by
        simp only [eq_iff_iff, iff_false]
        exact fun hba => (List.nodup_cons.1 hnd).1 (hba ▸ ha')
      rw [ih a (List.nodup_cons.1 hnd).2 ha']
      simp [hne]

theorem updateAfterDownload_map (sizes : List SizeConfig) :
    updateDerivedContentStatusAfterDownload (sizes.map placeholderRec) =
      sizes.map fun s => ⟨s.name, deriveSizeVariant s.width s.height,
        ContentStatusProcessing⟩ := by
  rw [updateDerivedContentStatusAfterDownload, List.map_map]
  rfl

/-- Every rendered thumbnail has a derived record of its name: the upload
step's lookup precondition holds by construction on the success path. -/
theorem thumbsCoverage (sizes : List SizeConfig) (sw sh : Nat) :
    ∀ t ∈ (sizes.map fun s => (⟨s.name, s.width, s.height, sw, sh⟩ :
          ThumbnailOutput)),
      t.name ∈ (updateDerivedContentStatusAfterDownload
        (sizes.map placeholderRec)).map fun r => r.sizeName := by
  intro t ht
  rcases List.mem_map.1 ht with ⟨s, hs, rfl⟩
  rw [updateAfterDownload_map]
  exact List.mem_map.2 ⟨⟨s.name, deriveSizeVariant s.width s.height,
    ContentStatusProcessing⟩, List.mem_map.2 ⟨s, hs, rfl⟩, rfl⟩

/-- C8: when renderer selection rejects a media type, the worker falls back
to the bitmap-image generator with a logged warning instead of failing the
job: on an otherwise healthy run the job still completes. -/
theorem generator_fallback_spec :
    (∀ mime e, GetGenerator mime = .error e →
      selectGenerator mime = (GeneratorKind.image, true))
    ∧ ∀ cfg jobId hints env parent src e,
      env.getContent = .ok parent →
      parent.status = ContentStatusUploaded →
      env.createFailsAt = none →
      env.fetchSource = .ok src →
      env.processingUpdateOk = true →
      env.generateOk = none →
      GetGenerator src.mimeType = .error e →
      (handleJob cfg jobId hints env).ok = true
      ∧ (handleJob cfg jobId hints env).fellBackToImage = true
      ∧ (handleJob cfg jobId hints env).generatorUsed = GeneratorKind.image := by
  have hsel : ∀ mime e, GetGenerator mime = .error e →
      selectGenerator mime = (GeneratorKind.image, true) := by
    intro mime e h
    rw [selectGenerator, h]
  refine ⟨hsel, ?_⟩
  intro cfg jobId hints env parent src e hget hstatus hcreate hfetch hproc hgen hGG
  have hval : validateParentContentStep parent = none := by
    rw [validateParentContentStep, if_neg fun h => h hstatus]
  simp only [handleJob, hget, hval, hcreate, createDerivedContentRecords, hfetch,
    hproc, hgen]
  try dsimp only
  rw [uploadResultsStep_spec _ _ _ _
    (thumbsCoverage (parseThumbnailSizesHint hints cfg) env.sourceWidth
      env.sourceHeight)]
  try dsimp only
  rw [hsel src.mimeType e hGG]
  exact ⟨rfl, rfl, rfl⟩

/-- C8 witness: the theorem applied to an archive media type on an
otherwise healthy environment. -/
theorem generator_fallback_spec_witness :
    (handleJob defaultThumbnailSizes "job-w8" none
      { envOkBase with fetchSource := .ok ⟨"a.zip", "application/zip"⟩ }).ok = true
    ∧ (handleJob defaultThumbnailSizes "job-w8" none
      { envOkBase with fetchSource := .ok ⟨"a.zip", "application/zip"⟩ }).fellBackToImage =
        true :=
  ⟨(generator_fallback_spec.2 defaultThumbnailSizes "job-w8" none
      { envOkBase with fetchSource := .ok ⟨"a.zip", "application/zip"⟩ }
      ⟨"p1", ContentStatusUploaded⟩ ⟨"a.zip", "application/zip"⟩
      ("unsupported MIME type: application/zip (supported: image/*, video/*, application/pdf)")
      rfl rfl rfl rfl rfl rfl rfl).1,
    (generator_fallback_spec.2 defaultThumbnailSizes "job-w8" none
      { envOkBase with fetchSource := .ok ⟨"a.zip", "application/zip"⟩ }
      ⟨"p1", ContentStatusUploaded⟩ ⟨"a.zip", "application/zip"⟩
      ("unsupported MIME type: application/zip (supported: image/*, video/*, application/pdf)")
      rfl rfl rfl rfl rfl rfl rfl).2.1⟩

theorem countP_congr_mem {α : Type} (p q : α → Bool) :
    ∀ l : List α, (∀ a ∈ l, p a = q a) → l.countP p = l.countP q := by
  intro l
  induction l with
  | nil => intro _; rfl
  | cons a t ih =>
    intro h
    rw [List.countP_cons, List.countP_cons, h a (List.mem_cons_self a t),
      ih fun x hx => h x (List.mem_cons_of_mem a hx)]

theorem countP_map_mem {α β : Type} (p : β → Bool) (g : α → β) :
    ∀ l : List α, (l.map g).countP p = l.countP fun a => p (g a) := by
  intro l
  induction l with
  | nil => rfl
  | cons a t ih =>
    rw [List.map_cons, List.countP_cons, List.countP_cons, ih]

theorem countP_eq_length_filter_mem {α : Type} (p : α → Bool) :
    ∀ l : List α, l.countP p = (l.filter p).length := by
  intro l
  induction l with
  | nil => rfl
  | cons a t ih =>
    rw [List.countP_cons, List.filter_cons]
    by_cases h : p a = true
    · simp [h, ih]
    · have hf : p a = false := by
        cases hpa : p a
        · rfl
        · exact absurd hpa h
      simp [hf, ih]

theorem any_eq_false_of_all {α : Type} (p : α → Bool) :
    ∀ l : List α, (∀ a ∈ l, p a = false) → l.any p = false := by
  intro l
  induction l with
  | nil => intro _; rfl
  | cons a t ih =>
    intro h
    rw [List.any_cons, h a (List.mem_cons_self a t), Bool.false_or]
    exact ih fun x hx => h x (List.mem_cons_of_mem a hx)

theorem any_eq_true_of_mem {α : Type} (p : α → Bool) {l : List α} {a : α}
    (ha : a ∈ l) (hp : p a = true) : l.any p = true := by
  induction l with
  | nil => cases ha
  | cons b t ih =>
    rw [List.any_cons]
    rcases List.mem_cons.1 ha with rfl | ha'
    · rw [hp, Bool.true_or]
    · rw [ih ha', Bool.or_true]

/-- C1 (amended): on a run where exactly the size named f fails its upload
and everything else succeeds, the completion event carries one result per
size, total_processed equals the total number of per-size results
(successes and failures alike, so N, not N-1) and total_failed = 1; the
failing size's result in the event says failed but its derived record stays
at processing (only the reconciliation scanner moves it on), while the
other records end processed. -/
theorem handleJob_one_upload_failure :
    ∀ cfg jobId hints env parent src f,
      env.getContent = .ok parent →
      parent.status = ContentStatusUploaded →
      env.createFailsAt = none →
      env.fetchSource = .ok src →
      env.processingUpdateOk = true →
      env.generateOk = none →
      env.uploadOk = (fun n => decide (n ≠ f)) →
      env.processedUpdateOk = (fun _ => true) →
      ((parseThumbnailSizesHint hints cfg).map fun s => s.name).Nodup →
      f ∈ ((parseThumbnailSizesHint hints cfg).map fun s => s.name) →
      (handleJob cfg jobId hints env).ok = true
      ∧ (handleJob cfg jobId hints env).event.totalProcessed =
          (parseThumbnailSizesHint hints cfg).length
      ∧ (handleJob cfg jobId hints env).event.totalFailed = 1
      ∧ (handleJob cfg jobId hints env).records =
          ((parseThumbnailSizesHint hints cfg).map fun s =>
            (⟨s.name, deriveSizeVariant s.width s.height,
              if s.name = f then ContentStatusProcessing
              else ContentStatusProcessed⟩ : DerivedRec))
      ∧ (handleJob cfg jobId hints env).event.results.map
            (fun r => (r.size, r.status)) =
          ((parseThumbnailSizesHint hints cfg).map fun s =>
            (s.name, if s.name = f then "failed" else "processed")) := by
  intro cfg jobId hints env parent src f hget hstatus hcreate hfetch hproc hgen
    hup hpud hnd hf
  have hval : validateParentContentStep parent = none := by
    rw [validateParentContentStep, if_neg fun h => h hstatus]
  simp only [handleJob, hget, hval, hcreate, createDerivedContentRecords, hfetch,
    hproc, hgen, hup, hpud]
  try dsimp only
  rw [uploadResultsStep_spec _ _ _ _
    (thumbsCoverage (parseThumbnailSizesHint hints cfg) env.sourceWidth
      env.sourceHeight)]
  try dsimp only
  simp only [Bool.and_true]
  refine ⟨rfl, ?_, ?_, ?_, ?_⟩
  · simp [publishEventsStep]
  · simp only [publishEventsStep]
    rw [← countP_eq_length_filter_mem, countP_map_mem, countP_map_mem]
    rw [countP_congr_mem _ (fun s => decide (s.name = f)) _ ?_]
    · rw [← countP_map_mem (fun x => decide (x = f)) (fun s : SizeConfig => s.name)]
      exact countP_eq_one_of_nodup_mem _ f hnd hf
    · intro s _
      by_cases hsf : s.name = f
      · simp [hsf, failedResult]
      · simp [hsf, processedResult]
  · rw [updateAfterDownload_map, List.map_map]
    apply List.map_congr_left
    intro s hs
    dsimp only [Function.comp]
    by_cases hsf : s.name = f
    · rw [if_pos hsf]
      have hany : (((parseThumbnailSizesHint hints cfg).map fun s' =>
          (⟨s'.name, s'.width, s'.height, env.sourceWidth, env.sourceHeight⟩ :
              ThumbnailOutput)).any fun t =>
            decide (t.name = s.name) && decide (t.name ≠ f)) = false := by
        apply any_eq_false_of_all
        intro t ht
        rcases List.mem_map.1 ht with ⟨s', _, rfl⟩
        by_cases h' : s'.name = s.name
        · have hnf : decide (s'.name ≠ f) = false := by simp [h', hsf]
          dsimp only
          rw [hnf, Bool.and_false]
        · have hne : decide (s'.name = s.name) = false := by simp [h']
          dsimp only
          rw [hne, Bool.false_and]
      rw [if_neg (by rw [hany]; exact Bool.false_ne_true)]
    · rw [if_neg hsf]
      have hany : (((parseThumbnailSizesHint hints cfg).map fun s' =>
          (⟨s'.name, s'.width, s'.height, env.sourceWidth, env.sourceHeight⟩ :
              ThumbnailOutput)).any fun t =>
            decide (t.name = s.name) && decide (t.name ≠ f)) = true :=
        any_eq_true_of_mem _ (List.mem_map.2 ⟨s, hs, rfl⟩) (by simp [hsf])
      rw [if_pos hany]
  · simp only [if_true, publishEventsStep]
    try dsimp only
    rw [List.map_map, List.map_map]
    apply List.map_congr_left
    intro s _
    dsimp only [Function.comp]
    by_cases hsf : s.name = f
    · simp [hsf, failedResult]
    · simp [hsf, processedResult]

/-- Two requested sizes named a and b. -/
def cfgPair : List SizeConfig := [⟨"a", 1, 1⟩, ⟨"b", 2, 2⟩]

/-- A run in which every step succeeds except the upload of size a. -/
def envOneFail : Env := { envOkBase with uploadOk := fun n => decide (n ≠ "a") }

/-- C1 counterexample: with the two sizes a and b and only the upload of a
failing, the published event reports total_processed = 2, not 2 - 1, and
the failing size's derived record stays at processing, not failed; the
conjunction the claim asserts is false at this input. -/
theorem handleJob_one_upload_failure_cex :
    (handleJob cfgPair "job-c1" none envOneFail).event.totalProcessed = 2
    ∧ (handleJob cfgPair "job-c1" none envOneFail).event.totalFailed = 1
    ∧ ((handleJob cfgPair "job-c1" none envOneFail).records.find?
        fun r => r.sizeName = "a") =
      some ⟨"a", "thumbnail_1", ContentStatusProcessing⟩
    ∧ ¬ ((handleJob cfgPair "job-c1" none envOneFail).event.totalProcessed = 2 - 1
        ∧ ((handleJob cfgPair "job-c1" none envOneFail).records.find?
            fun r => r.sizeName = "a") =
          some ⟨"a", "thumbnail_1", ContentStatusFailed⟩) := by
  decide

/-- C1 witness: the amended theorem applied to the concrete two-size run
with the upload of size a failing. -/
theorem handleJob_one_upload_failure_witness :
    (handleJob cfgPair "job-w1" none envOneFail).event.totalProcessed = 2
    ∧ (handleJob cfgPair "job-w1" none envOneFail).event.totalFailed = 1 :=
  ⟨((handleJob_one_upload_failure cfgPair "job-w1" none envOneFail
      ⟨"p1", ContentStatusUploaded⟩ ⟨"src.png", "image/png"⟩ "a"
      rfl rfl rfl rfl rfl rfl rfl rfl (by decide) (by decide)).2.1).trans
      (by decide),
    (handleJob_one_upload_failure cfgPair "job-w1" none envOneFail
      ⟨"p1", ContentStatusUploaded⟩ ⟨"src.png", "image/png"⟩ "a"
      rfl rfl rfl rfl rfl rfl rfl rfl (by decide) (by decide)).2.2.1⟩

/-- C3 witness: the theorem applied to the default size set on an
all-success environment. -/
theorem handleJob_placeholder_records_witness :
    (handleJob defaultThumbnailSizes "job-w3" none envOkBase).recordsBeforeFetch =
      defaultThumbnailSizes.map placeholderRec
    ∧ (handleJob defaultThumbnailSizes "job-w3" none envOkBase).records.map recKey =
        (defaultThumbnailSizes.map fun s =>
          (s.name, deriveSizeVariant s.width s.height)) :=
  ⟨(handleJob_placeholder_records defaultThumbnailSizes "job-w3" none envOkBase
      ⟨"p1", ContentStatusUploaded⟩ rfl rfl rfl).1,
    (handleJob_placeholder_records defaultThumbnailSizes "job-w3" none envOkBase
      ⟨"p1", ContentStatusUploaded⟩ rfl rfl rfl).2.2⟩

end Thumbnailer
